import Mathlib

/-!
Verification of the email extraction core of `src/lib/csvParser.ts`:
the validator, the column detector and the two extraction pipelines,
shallowly embedded over `List`-based rows and `String` cell values.
-/

namespace CsvParser

/-- Code points that JavaScript's `\s` character class (and `String.prototype.trim`)
treats as whitespace. -/
def isJsWhitespaceNat (n : Nat) : Bool :=
  n == 9 || n == 10 || n == 11 || n == 12 || n == 13 || n == 32 ||
  n == 160 || n == 5760 || (decide (8192 ≤ n) && decide (n ≤ 8202)) ||
  n == 8232 || n == 8233 || n == 8239 || n == 8287 || n == 12288 || n == 65279

def isJsWhitespace (c : Char) : Bool := isJsWhitespaceNat c.toNat

/-- The `@` sign, by code point. -/
def isAtSign (c : Char) : Bool := c.toNat == 64

/-- The `.` character, by code point. -/
def isDot (c : Char) : Bool := c.toNat == 46

/-- JavaScript `String.prototype.toLowerCase`, restricted to the ASCII range
(the only range the repository's data exercises): code points 65-90 shift by 32. -/
def jsCharLower (c : Char) : Char :=
  if 65 ≤ c.toNat ∧ c.toNat ≤ 90 then Char.ofNat (c.toNat + 32) else c

theorem jsCharLower_toNat (c : Char) :
    (jsCharLower c).toNat =
      if 65 ≤ c.toNat ∧ c.toNat ≤ 90 then c.toNat + 32 else c.toNat := by
  unfold jsCharLower
  split
  · rename_i h
    obtain ⟨h1, h2⟩ := h
    interval_cases h3 : c.toNat <;> decide
  · rfl

theorem isJsWhitespaceNat_false {n : Nat} (h1 : 65 ≤ n) (h2 : n ≤ 122) :
    isJsWhitespaceNat n = false := by
  unfold isJsWhitespaceNat
  simp only [Bool.or_eq_false_iff, Bool.and_eq_false_iff, beq_eq_false_iff_ne,
    decide_eq_false_iff_not, ne_eq]
  omega

theorem isJsWhitespace_jsCharLower (c : Char) :
    isJsWhitespace (jsCharLower c) = isJsWhitespace c := by
  unfold isJsWhitespace
  rw [jsCharLower_toNat]
  split
  · rename_i h
    rw [isJsWhitespaceNat_false (by omega) (by omega),
        isJsWhitespaceNat_false (by omega) (by omega)]
  · rfl

theorem isAtSign_jsCharLower (c : Char) :
    isAtSign (jsCharLower c) = isAtSign c := by
  unfold isAtSign
  rw [jsCharLower_toNat]
  split
  · rename_i h
    have h1 : (c.toNat + 32 == 64) = false := by
      simp only [beq_eq_false_iff_ne, ne_eq]; omega
    have h2 : (c.toNat == 64) = false := by
      simp only [beq_eq_false_iff_ne, ne_eq]; omega
    rw [h1, h2]
  · rfl

theorem isDot_jsCharLower (c : Char) :
    isDot (jsCharLower c) = isDot c := by
  unfold isDot
  rw [jsCharLower_toNat]
  split
  · rename_i h
    have h1 : (c.toNat + 32 == 46) = false := by
      simp only [beq_eq_false_iff_ne, ne_eq]; omega
    have h2 : (c.toNat == 46) = false := by
      simp only [beq_eq_false_iff_ne, ne_eq]; omega
    rw [h1, h2]
  · rfl

/-- Trim JavaScript-whitespace from both ends of a character list
(JS `String.prototype.trim`). -/
def trimChars (cs : List Char) : List Char :=
  ((cs.dropWhile isJsWhitespace).reverse.dropWhile isJsWhitespace).reverse

/-- JS `s.trim()`. -/
def jsTrim (s : String) : String := String.mk (trimChars s.data)

/-- JS `s.toLowerCase()` (ASCII range). -/
def jsToLower (s : String) : String := String.mk (s.data.map jsCharLower)

/-- JS string truthiness: a string is truthy iff it is nonempty. -/
def jsTruthyStr (s : String) : Bool := !s.data.isEmpty

/-- JS truthiness of a `string | null` value: `null` and `""` are falsy. -/
def jsTruthyOpt (s : Option String) : Bool :=
  match s with
  | some v => jsTruthyStr v
  | none => false

/-- Does `cs` start with `sub`? (helper for JS `String.prototype.includes`). -/
def startsWithChars : List Char → List Char → Bool
  | [], _ => true
  | _ :: _, [] => false
  | a :: as, b :: bs => a == b && startsWithChars as bs

/-- Does `cs` contain `sub` as a contiguous run? -/
def containsChars (sub : List Char) : List Char → Bool
  | [] => sub.isEmpty
  | c :: rest => startsWithChars sub (c :: rest) || containsChars sub rest

/-- JS `s.includes(sub)`. -/
def strIncludes (s sub : String) : Bool := containsChars sub.data s.data

/-- The language of `EMAIL_REGEX = /^[^\s@]+@[^\s@]+\.[^\s@]+$/`:
a nonempty run of non-whitespace non-`@` characters, a literal `@`, then a
domain of non-whitespace non-`@` characters containing a `.` that is neither
its first nor its last character. -/
def emailShape (cs : List Char) : Bool :=
  let localPart := cs.takeWhile (fun c => !(isAtSign c))
  let rest := cs.dropWhile (fun c => !(isAtSign c))
  match rest with
  | [] => false
  | _ :: domain =>
      !localPart.isEmpty &&
      localPart.all (fun c => !(isJsWhitespace c)) &&
      domain.all (fun c => !(isJsWhitespace c) && !(isAtSign c)) &&
      ((domain.drop 1).dropLast.any isDot)

/-- `isValidEmail` from `csvParser.ts`: `EMAIL_REGEX.test(email.trim())`. -/
def isValidEmail (email : String) : Bool := emailShape (trimChars email.data)

/-- A decoded row: ordered association list from column name to (string) cell
value; a column that is absent from the list models a missing / non-string
cell (`typeof rawValue === 'string'` fails for it). -/
abbrev ParsedRow := List (String × String)

/-- `row[column]` followed by
`typeof rawValue === 'string' ? rawValue.trim() : ''`. -/
def cellValue (row : ParsedRow) (column : String) : String :=
  match List.find? (fun p => p.1 == column) row with
  | some p => jsTrim p.2
  | none => ""

/-- `countEmailLikeValues` from `csvParser.ts`. -/
def countEmailLikeValues (column : String) (data : List ParsedRow) : Nat :=
  data.foldl (fun count row =>
    let value := cellValue row column
    if jsTruthyStr value && isValidEmail value then count + 1 else count) 0

/-- `detectEmailColumn` from `csvParser.ts`: exact match on
`"E-mail 1 - Value"`, then a header containing both `"e-mail"` and `"value"`
case-insensitively, then the best-scoring column (strictly improving scan),
returned only when truthy with a positive score. -/
def detectEmailColumn (headers : List String) (data : List ParsedRow) :
    Option String :=
  match headers.find? (fun h => h == "E-mail 1 - Value") with
  | some exactMatch => some exactMatch
  | none =>
    match headers.find? (fun h =>
        strIncludes (jsToLower h) "e-mail" && strIncludes (jsToLower h) "value") with
    | some emailValueMatch => some emailValueMatch
    | none =>
      let best := headers.foldl
        (fun acc header =>
          let emailCount := countEmailLikeValues header data
          if acc.2 < emailCount then (some header, emailCount) else acc)
        ((none : Option String), 0)
      match best with
      | (some bestColumn, maxEmailCount) =>
        if jsTruthyStr bestColumn && decide (0 < maxEmailCount) then
          some bestColumn
        else none
      | (none, _) => none

/-- `extractEmailsFromColumn` from `csvParser.ts`. -/
def extractEmailsFromColumn (column : Option String) (data : List ParsedRow) :
    List String :=
  if !jsTruthyOpt column then []
  else
    let col := column.getD ("")
    data.foldl (fun emails row =>
      let value := cellValue row col
      if jsTruthyStr value && isValidEmail value then emails ++ [jsToLower value]
      else emails) []

/-- `extractRawValuesFromColumn` from `csvParser.ts`: the non-empty trimmed
cell values of the column, in row order. -/
def extractRawValuesFromColumn (column : Option String) (data : List ParsedRow) :
    List String :=
  if !jsTruthyOpt column then []
  else
    let col := column.getD ("")
    data.foldl (fun values row =>
      let value := cellValue row col
      if jsTruthyStr value then values ++ [value] else values) []

/-- `extractEmailsFromAllCells` from `csvParser.ts`: scan `Object.values` of
every row in order, keep trimmed valid emails, deduplicate case-insensitively
via a seen-set. State is `(seen, emails)`. -/
def allCellsStep (acc : List String × List String) (value : String) :
    List String × List String :=
  let trimmed := jsTrim value
  if jsTruthyStr trimmed && isValidEmail trimmed then
    let lower := jsToLower trimmed
    if acc.1.contains lower then acc else (lower :: acc.1, acc.2 ++ [lower])
  else acc

def extractEmailsFromAllCells (data : List ParsedRow) : List String :=
  (data.foldl (fun acc row => (row.map Prod.snd).foldl allCellsStep acc)
    ([], [])).2

/-- The options record of both pipelines; `none` models an absent
(`undefined`) field. -/
structure ExtractOptions where
  removeDuplicates : Option Bool
  removeInvalid : Option Bool
deriving Repr, DecidableEq

/-- `{}`: both options omitted. -/
def noOptions : ExtractOptions := ⟨none, none⟩

structure Stats where
  total : Nat
  valid : Nat
  invalid : Nat
  duplicates : Nat
  empty : Nat
deriving Repr, DecidableEq

structure EmailExtractionResult where
  emails : List String
  detectedColumn : Option String
  stats : Stats
deriving Repr, DecidableEq

/-- State of the statistics/dedup loop shared by both pipelines:
seen-set, output, and the four counters `validCount`, `invalidCount`,
`duplicatesCount`, `emptyCount` (in that order). -/
structure LoopState where
  seen : List String
  processed : List String
  validCount : Nat
  invalidCount : Nat
  duplicatesCount : Nat
  emptyCount : Nat
deriving Repr, DecidableEq

def initLoopState : LoopState := ⟨[], [], 0, 0, 0, 0⟩

/-- One iteration of the `for (const rawValue of rawValues)` loop of
`parseCSVAndExtractEmails` / `parseTSVAndExtractEmails`. -/
def processRawValue (removeDuplicates removeInvalid : Bool) (st : LoopState)
    (rawValue : String) : LoopState :=
  let trimmed := jsToLower (jsTrim rawValue)
  if !jsTruthyStr trimmed then
    ⟨st.seen, st.processed, st.validCount, st.invalidCount,
      st.duplicatesCount, st.emptyCount + 1⟩
  else if !isValidEmail trimmed then
    if !removeInvalid then
      if !removeDuplicates || !st.seen.contains trimmed then
        ⟨trimmed :: st.seen, st.processed ++ [trimmed], st.validCount + 1,
          st.invalidCount + 1, st.duplicatesCount, st.emptyCount⟩
      else
        ⟨st.seen, st.processed, st.validCount, st.invalidCount + 1,
          st.duplicatesCount + 1, st.emptyCount⟩
    else
      ⟨st.seen, st.processed, st.validCount, st.invalidCount + 1,
        st.duplicatesCount, st.emptyCount⟩
  else if removeDuplicates && st.seen.contains trimmed then
    ⟨st.seen, st.processed, st.validCount, st.invalidCount,
      st.duplicatesCount + 1, st.emptyCount⟩
  else
    ⟨trimmed :: st.seen, st.processed ++ [trimmed], st.validCount + 1,
      st.invalidCount, st.duplicatesCount, st.emptyCount⟩

def processRawValues (removeDuplicates removeInvalid : Bool)
    (rawValues : List String) : LoopState :=
  rawValues.foldl (processRawValue removeDuplicates removeInvalid) initLoopState

/-- Everything after the `Papa.parse` callback of `parseCSVAndExtractEmails`,
acting on the decoded headers and rows. The CSV variant destructures the
options with `= true` defaults. The source also computes an `emails` array
(`extractEmailsFromColumn` in column mode, an identity `.map` copy of the
fallback list otherwise) that the returned result never uses — the output is
built from `processed` — so that dead computation is omitted here. -/
def parseCSVAndExtractEmails (headers : List String) (data : List ParsedRow)
    (options : ExtractOptions) : Except String EmailExtractionResult :=
  let removeDuplicates := options.removeDuplicates.getD true
  let removeInvalid := options.removeInvalid.getD true
  if data.length = 0 then
    Except.error ("CSVファイルが空です")
  else
    let detectedColumn := detectEmailColumn headers data
    let rawValues : List String :=
      if jsTruthyOpt detectedColumn then
        extractRawValuesFromColumn detectedColumn data
      else
        extractEmailsFromAllCells data
    let st := processRawValues removeDuplicates removeInvalid rawValues
    Except.ok ⟨st.processed, detectedColumn,
      ⟨rawValues.length, st.processed.length, st.invalidCount,
        st.duplicatesCount, st.emptyCount⟩⟩

/-- Everything after the `Papa.parse` callback of `parseTSVAndExtractEmails`.
The TSV variant never destructures the options: it tests
`options.removeDuplicates` / `options.removeInvalid` by truthiness, so an
omitted option behaves as `false` (JS `undefined` is falsy). As in the CSV
variant, the unused `emails` array of the source is omitted. -/
def parseTSVAndExtractEmails (headers : List String) (data : List ParsedRow)
    (options : ExtractOptions) : Except String EmailExtractionResult :=
  if data.length = 0 then
    Except.error ("TSVファイルが空です")
  else
    let detectedColumn := detectEmailColumn headers data
    let rawValues : List String :=
      if jsTruthyOpt detectedColumn then
        extractRawValuesFromColumn detectedColumn data
      else
        extractEmailsFromAllCells data
    let st := processRawValues (options.removeDuplicates.getD false)
      (options.removeInvalid.getD false) rawValues
    Except.ok ⟨st.processed, detectedColumn,
      ⟨rawValues.length, st.processed.length, st.invalidCount,
        st.duplicatesCount, st.emptyCount⟩⟩

/-! ### String-level lemmas -/

theorem jsCharLower_idem (c : Char) :
    jsCharLower (jsCharLower c) = jsCharLower c := by
  have h := jsCharLower_toNat c
  generalize hx : jsCharLower c = x at h ⊢
  unfold jsCharLower
  rw [if_neg]
  intro hcon
  split at h <;> omega

theorem dropWhile_eq_self_of_head {p : Char → Bool} :
    ∀ l : List Char, (∀ c, l.head? = some c → p c = false) → l.dropWhile p = l
  | [], _ => rfl
  | c :: cs, h => by
    have hc := h c rfl
    simp [List.dropWhile_cons, hc]

/-- `NoWsHead p l`: the head of `l` (if any) fails `p`. -/
def NoWsHead (p : Char → Bool) (l : List Char) : Prop :=
  ∀ c, l.head? = some c → p c = false

/-- `NoWsLast p l`: the last element of `l` (if any) fails `p`. -/
def NoWsLast (p : Char → Bool) (l : List Char) : Prop :=
  ∀ c, l.getLast? = some c → p c = false

theorem noWsHead_dropWhile (p : Char → Bool) (l : List Char) :
    NoWsHead p (l.dropWhile p) := by
  intro c hc
  have h := List.head?_dropWhile_not p l
  rw [hc] at h
  exact h

theorem noWsLast_reverse {p : Char → Bool} {l : List Char}
    (h : NoWsHead p l) : NoWsLast p l.reverse := by
  intro c hc
  rw [List.getLast?_eq_head?_reverse, List.reverse_reverse] at hc
  exact h c hc

theorem noWsHead_reverse {p : Char → Bool} {l : List Char}
    (h : NoWsLast p l) : NoWsHead p l.reverse := by
  intro c hc
  apply h
  rw [List.getLast?_eq_head?_reverse]
  exact hc

theorem noWsLast_dropWhile {p : Char → Bool} :
    ∀ {l : List Char}, NoWsLast p l → NoWsLast p (l.dropWhile p)
  | [], h => h
  | [c], h => by
    by_cases hc : p c
    · simp [List.dropWhile_cons, hc]
      intro c' hc'
      simp at hc'
    · simpa [List.dropWhile_cons, hc] using h
  | c :: c' :: cs, h => by
    by_cases hc : p c
    · rw [List.dropWhile_cons_of_pos hc]
      apply noWsLast_dropWhile
      intro x hx
      apply h
      rw [List.getLast?_cons_cons]
      exact hx
    · simpa [List.dropWhile_cons, hc] using h

theorem trimChars_noWsHead (cs : List Char) :
    NoWsHead isJsWhitespace (trimChars cs) := by
  unfold trimChars
  apply noWsHead_reverse
  apply noWsLast_dropWhile
  apply noWsLast_reverse
  exact noWsHead_dropWhile _ _

theorem trimChars_noWsLast (cs : List Char) :
    NoWsLast isJsWhitespace (trimChars cs) := by
  unfold trimChars
  apply noWsLast_reverse
  exact noWsHead_dropWhile _ _

theorem trimChars_of_noWs {cs : List Char}
    (h1 : NoWsHead isJsWhitespace cs) (h2 : NoWsLast isJsWhitespace cs) :
    trimChars cs = cs := by
  unfold trimChars
  rw [dropWhile_eq_self_of_head cs h1,
      dropWhile_eq_self_of_head cs.reverse (noWsHead_reverse h2),
      List.reverse_reverse]

theorem trimChars_idem (cs : List Char) :
    trimChars (trimChars cs) = trimChars cs :=
  trimChars_of_noWs (trimChars_noWsHead cs) (trimChars_noWsLast cs)

theorem ws_comp_lower :
    (isJsWhitespace ∘ jsCharLower) = isJsWhitespace :=
  funext fun c => isJsWhitespace_jsCharLower c

theorem trimChars_map_lower (cs : List Char) :
    trimChars (cs.map jsCharLower) = (trimChars cs).map jsCharLower := by
  unfold trimChars
  rw [List.dropWhile_map, ws_comp_lower, ← List.map_reverse,
      List.dropWhile_map, ws_comp_lower, ← List.map_reverse]

theorem emailShape_map_lower (cs : List Char) :
    emailShape (cs.map jsCharLower) = emailShape cs := by
  unfold emailShape
  have hat : ((fun c => !(isAtSign c)) ∘ jsCharLower) = fun c => !(isAtSign c) :=
    funext fun c => by simp [Function.comp, isAtSign_jsCharLower]
  have hws : ((fun c => !(isJsWhitespace c)) ∘ jsCharLower)
      = fun c => !(isJsWhitespace c) :=
    funext fun c => by simp [Function.comp, isJsWhitespace_jsCharLower]
  have hwa : ((fun c => !(isJsWhitespace c) && !(isAtSign c)) ∘ jsCharLower)
      = fun c => !(isJsWhitespace c) && !(isAtSign c) :=
    funext fun c => by
      simp [Function.comp, isJsWhitespace_jsCharLower, isAtSign_jsCharLower]
  have hdot : (isDot ∘ jsCharLower) = isDot :=
    funext fun c => by simp [Function.comp, isDot_jsCharLower]
  have hEmpty : ∀ X : List Char, (X.map jsCharLower).isEmpty = X.isEmpty :=
    fun X => by cases X <;> rfl
  rw [List.takeWhile_map, List.dropWhile_map, hat]
  cases hrest : cs.dropWhile (fun c => !(isAtSign c)) with
  | nil => rfl
  | cons a domain =>
    simp only [List.map_cons, List.all_map, List.any_map, hws, hwa, hdot,
      ← List.map_drop, ← List.map_dropLast, hEmpty]

theorem isValidEmail_jsToLower (s : String) :
    isValidEmail (jsToLower s) = isValidEmail s := by
  show emailShape (trimChars (s.data.map jsCharLower)) = _
  rw [trimChars_map_lower, emailShape_map_lower]
  rfl

theorem isValidEmail_jsTrim (s : String) :
    isValidEmail (jsTrim s) = isValidEmail s := by
  show emailShape (trimChars (trimChars s.data)) = _
  rw [trimChars_idem]
  rfl

/-- The normalized (trimmed then lowercased) form the loop works on. -/
def normalize (s : String) : String := jsToLower (jsTrim s)

theorem isValidEmail_normalize (s : String) :
    isValidEmail (normalize s) = isValidEmail s := by
  unfold normalize
  rw [isValidEmail_jsToLower, isValidEmail_jsTrim]

theorem jsTruthyStr_jsToLower (s : String) :
    jsTruthyStr (jsToLower s) = jsTruthyStr s := by
  unfold jsTruthyStr jsToLower
  cases s.data <;> rfl

/-- A string that is already trimmed. -/
def Trimmed (s : String) : Prop := trimChars s.data = s.data

/-- A string that is already lowercased. -/
def Lowered (s : String) : Prop := s.data.map jsCharLower = s.data

theorem string_mk_data (s : String) : String.mk s.data = s := rfl

theorem jsTrim_of_trimmed {s : String} (h : Trimmed s) : jsTrim s = s := by
  unfold jsTrim
  rw [h]

theorem trimmed_jsTrim (s : String) : Trimmed (jsTrim s) := by
  unfold Trimmed jsTrim
  exact trimChars_idem s.data

theorem trimmed_jsToLower {s : String} (h : Trimmed s) :
    Trimmed (jsToLower s) := by
  unfold Trimmed at h
  show trimChars (s.data.map jsCharLower) = s.data.map jsCharLower
  rw [trimChars_map_lower, h]

theorem lowered_jsToLower (s : String) : Lowered (jsToLower s) := by
  show (s.data.map jsCharLower).map jsCharLower = s.data.map jsCharLower
  rw [List.map_map]
  apply List.map_congr_left
  intro c _
  exact jsCharLower_idem c

theorem normalize_of_trimmed_lowered {s : String}
    (h1 : Trimmed s) (h2 : Lowered s) : normalize s = s := by
  unfold normalize
  rw [jsTrim_of_trimmed h1]
  unfold jsToLower
  rw [h2]

theorem jsTruthyStr_normalize_of_trimmed {s : String} (h : Trimmed s) :
    jsTruthyStr (normalize s) = jsTruthyStr s := by
  unfold normalize
  rw [jsTrim_of_trimmed h, jsTruthyStr_jsToLower]

/-! ### Invariants of the gathered raw values -/

theorem trimmed_empty : Trimmed ("") := rfl

theorem cellValue_trimmed (row : ParsedRow) (col : String) :
    Trimmed (cellValue row col) := by
  unfold cellValue
  cases List.find? (fun p => p.1 == col) row with
  | none => exact trimmed_empty
  | some p => exact trimmed_jsTrim p.2

theorem rawValues_aux (col : String) :
    ∀ (data : List ParsedRow) (acc : List String),
      (∀ v ∈ acc, jsTruthyStr v = true ∧ Trimmed v) →
      ∀ v ∈ data.foldl (fun values row =>
          let value := cellValue row col
          if jsTruthyStr value then values ++ [value] else values) acc,
        jsTruthyStr v = true ∧ Trimmed v
  | [], acc, hacc => hacc
  | row :: data, acc, hacc => by
    rw [List.foldl_cons]
    apply rawValues_aux col data
    intro v hv
    dsimp only at hv
    by_cases hc : jsTruthyStr (cellValue row col) = true
    · rw [if_pos hc] at hv
      rcases List.mem_append.mp hv with h | h
      · exact hacc v h
      · rcases List.mem_singleton.mp h with rfl
        exact ⟨hc, cellValue_trimmed row col⟩
    · rw [if_neg hc] at hv
      exact hacc v hv

theorem extractRawValuesFromColumn_mem (column : Option String)
    (data : List ParsedRow) :
    ∀ v ∈ extractRawValuesFromColumn column data,
      jsTruthyStr v = true ∧ Trimmed v := by
  unfold extractRawValuesFromColumn
  split
  · intro v hv
    simp at hv
  · exact rawValues_aux (column.getD ("")) data [] (by intro v hv; simp at hv)

/-- The invariant satisfied by everything `extractEmailsFromAllCells` emits. -/
def CleanEmail (v : String) : Prop :=
  jsTruthyStr v = true ∧ Trimmed v ∧ Lowered v ∧ isValidEmail v = true

theorem allCellsStep_clean (acc : List String × List String) (value : String)
    (hacc : ∀ v ∈ acc.2, CleanEmail v) :
    ∀ v ∈ (allCellsStep acc value).2, CleanEmail v := by
  unfold allCellsStep
  dsimp only
  by_cases hg : (jsTruthyStr (jsTrim value) && isValidEmail (jsTrim value)) = true
  · rw [if_pos hg]
    obtain ⟨h1, h2⟩ := Bool.and_eq_true_iff.mp hg
    by_cases hc : acc.1.contains (jsToLower (jsTrim value)) = true
    · rw [if_pos hc]; exact hacc
    · rw [if_neg hc]
      intro v hv
      rcases List.mem_append.mp hv with h | h
      · exact hacc v h
      · rcases List.mem_singleton.mp h with rfl
        refine ⟨?_, trimmed_jsToLower (trimmed_jsTrim value),
          lowered_jsToLower (jsTrim value), ?_⟩
        · rw [jsTruthyStr_jsToLower]; exact h1
        · rw [isValidEmail_jsToLower]; exact h2
  · rw [if_neg hg]; exact hacc

theorem allCellsFold_clean :
    ∀ (vals : List String) (acc : List String × List String),
      (∀ v ∈ acc.2, CleanEmail v) →
      ∀ v ∈ (vals.foldl allCellsStep acc).2, CleanEmail v
  | [], _, hacc => hacc
  | value :: vals, acc, hacc => by
    rw [List.foldl_cons]
    exact allCellsFold_clean vals _ (allCellsStep_clean acc value hacc)

theorem extractEmailsFromAllCells_mem (data : List ParsedRow) :
    ∀ v ∈ extractEmailsFromAllCells data, CleanEmail v := by
  unfold extractEmailsFromAllCells
  suffices h : ∀ (d : List ParsedRow) (acc : List String × List String),
      (∀ v ∈ acc.2, CleanEmail v) →
      ∀ v ∈ (d.foldl (fun acc row => (row.map Prod.snd).foldl allCellsStep acc)
        acc).2, CleanEmail v by
    exact h data ([], []) (by intro v hv; simp at hv)
  intro d
  induction d with
  | nil => intro acc hacc; exact hacc
  | cons row rest ih =>
    intro acc hacc
    rw [List.foldl_cons]
    exact ih _ (allCellsFold_clean (row.map Prod.snd) acc hacc)

/-! ### Lemmas on the statistics / dedup loop -/

theorem contains_iff {l : List String} {x : String} :
    l.contains x = true ↔ x ∈ l := by
  rw [List.contains_iff_exists_mem_beq]
  constructor
  · rintro ⟨y, hy, he⟩
    rw [beq_iff_eq] at he
    exact he ▸ hy
  · intro h
    exact ⟨x, h, by simp⟩

theorem nodup_append_singleton :
    ∀ {l : List String} {t : String}, t ∉ l → l.Nodup → (l ++ [t]).Nodup
  | [], t, _, _ => List.nodup_singleton t
  | x :: l, t, ht, hnd => by
    rw [List.cons_append]
    rw [List.nodup_cons] at hnd
    refine List.nodup_cons.mpr ⟨?_, nodup_append_singleton
      (fun h => ht (List.mem_cons_of_mem x h)) hnd.2⟩
    intro hx
    rcases List.mem_append.mp hx with h | h
    · exact hnd.1 h
    · rcases List.mem_singleton.mp h with rfl
      exact ht (List.mem_cons_self x l)

theorem processRawValue_emptyCount (rd ri : Bool) (st : LoopState) (v : String)
    (h : jsTruthyStr (normalize v) = true) :
    (processRawValue rd ri st v).emptyCount = st.emptyCount := by
  have h' : jsTruthyStr (jsToLower (jsTrim v)) = true := h
  simp only [processRawValue, h', Bool.not_true]
  (repeat' split) <;> simp_all

theorem loop_emptyCount (rd ri : Bool) :
    ∀ (vs : List String) (st : LoopState),
      (∀ v ∈ vs, jsTruthyStr (normalize v) = true) →
      (vs.foldl (processRawValue rd ri) st).emptyCount = st.emptyCount
  | [], _, _ => rfl
  | v :: vs, st, h => by
    rw [List.foldl_cons]
    rw [loop_emptyCount rd ri vs _ (fun x hx => h x (List.mem_cons_of_mem v hx))]
    exact processRawValue_emptyCount rd ri st v (h v (List.mem_cons_self v vs))

theorem processRawValue_invalidCount (rd ri : Bool) (st : LoopState)
    (v : String) (h : jsTruthyStr (normalize v) = true) :
    (processRawValue rd ri st v).invalidCount =
      st.invalidCount + (if isValidEmail (normalize v) = true then 0 else 1) := by
  have h' : jsTruthyStr (jsToLower (jsTrim v)) = true := h
  have hn : isValidEmail (normalize v) = isValidEmail (jsToLower (jsTrim v)) := rfl
  rw [hn]
  simp only [processRawValue, h', Bool.not_true]
  (repeat' split) <;> simp_all

theorem loop_invalidCount (rd ri : Bool) :
    ∀ (vs : List String) (st : LoopState),
      (∀ v ∈ vs, jsTruthyStr (normalize v) = true) →
      (vs.foldl (processRawValue rd ri) st).invalidCount =
        st.invalidCount + vs.countP (fun v => !isValidEmail (normalize v))
  | [], _, _ => by simp [List.countP_nil]
  | v :: vs, st, h => by
    rw [List.foldl_cons,
      loop_invalidCount rd ri vs _ (fun x hx => h x (List.mem_cons_of_mem v hx)),
      processRawValue_invalidCount rd ri st v (h v (List.mem_cons_self v vs)),
      List.countP_cons]
    by_cases hv : isValidEmail (normalize v) = true <;> simp [hv] <;> try omega

/-- Every processed (output) string is in the seen-set. -/
def SeenInv (st : LoopState) : Prop :=
  ∀ x ∈ st.processed, st.seen.contains x = true

theorem seenInv_push {st : LoopState} (h : SeenInv st) (t : String) :
    ∀ x ∈ st.processed ++ [t], (t :: st.seen).contains x = true := by
  intro x hx
  rw [List.contains_cons]
  rcases List.mem_append.mp hx with hm | hm
  · rw [h x hm, Bool.or_true]
  · rcases List.mem_singleton.mp hm with rfl
    simp

theorem processRawValue_seenInv (rd ri : Bool) (st : LoopState) (v : String)
    (h : SeenInv st) : SeenInv (processRawValue rd ri st v) := by
  unfold SeenInv
  simp only [processRawValue]
  (repeat' split) <;> first
    | exact h
    | exact seenInv_push h _

theorem processRawValue_nodup (ri : Bool) (st : LoopState) (v : String)
    (hinv : SeenInv st) (hnd : st.processed.Nodup) :
    (processRawValue true ri st v).processed.Nodup := by
  simp only [processRawValue]
  (repeat' split) <;> try exact hnd
  all_goals {
    rename_i hcond
    apply nodup_append_singleton
    · intro hmem
      have := hinv _ hmem
      simp_all
    · exact hnd
  }

theorem loop_nodup (ri : Bool) :
    ∀ (vs : List String) (st : LoopState), SeenInv st → st.processed.Nodup →
      (vs.foldl (processRawValue true ri) st).processed.Nodup
  | [], _, _, hnd => hnd
  | v :: vs, st, hinv, hnd => by
    rw [List.foldl_cons]
    exact loop_nodup ri vs _ (processRawValue_seenInv true ri st v hinv)
      (processRawValue_nodup ri st v hinv hnd)

theorem processRawValue_processed_mono (rd ri : Bool) (st : LoopState)
    (v x : String) (h : x ∈ st.processed) :
    x ∈ (processRawValue rd ri st v).processed := by
  simp only [processRawValue]
  (repeat' split) <;> first
    | exact h
    | exact List.mem_append.mpr (Or.inl h)

theorem loop_processed_mono (rd ri : Bool) :
    ∀ (vs : List String) (st : LoopState) (x : String), x ∈ st.processed →
      x ∈ (vs.foldl (processRawValue rd ri) st).processed
  | [], _, _, h => h
  | v :: vs, st, x, h => by
    rw [List.foldl_cons]
    exact loop_processed_mono rd ri vs _ x
      (processRawValue_processed_mono rd ri st v x h)

/-- Every seen string is in the processed output (the loop pushes to both
together). -/
def SeenSub (st : LoopState) : Prop :=
  ∀ x, st.seen.contains x = true → x ∈ st.processed

theorem processRawValue_seenSub (rd ri : Bool) (st : LoopState) (v : String)
    (h : SeenSub st) : SeenSub (processRawValue rd ri st v) := by
  unfold SeenSub
  simp only [processRawValue]
  (repeat' split) <;> intro x hx <;> first
    | exact h x hx
    | {
      rw [List.contains_cons] at hx
      rcases Bool.or_eq_true_iff.mp hx with he | hm
      · rw [beq_iff_eq] at he
        exact List.mem_append.mpr (Or.inr (he ▸ List.mem_singleton.mpr rfl))
      · exact List.mem_append.mpr (Or.inl (h x hm)) }

/-- With `removeInvalid` effectively false, an invalid (non-empty) raw value's
normalized form always ends up in the output: it is pushed the first time and
only ever suppressed later because an equal normalization was pushed before. -/
theorem loop_invalid_mem (rd : Bool) :
    ∀ (vs : List String) (st : LoopState), SeenSub st →
      (∀ v ∈ vs, jsTruthyStr (normalize v) = true) →
      ∀ v ∈ vs, isValidEmail (normalize v) = false →
        normalize v ∈ (vs.foldl (processRawValue rd false) st).processed
  | [], _, _, _ => by intro v hv; simp at hv
  | v :: vs, st, hsub, htr => by
    intro w hw hwinv
    rw [List.foldl_cons]
    rcases List.mem_cons.mp hw with rfl | hmem
    · -- w is processed first; it lands in processed at this step (or already was)
      have htw : jsTruthyStr (jsToLower (jsTrim w)) = true :=
        htr w (List.mem_cons_self w vs)
      have hwi : isValidEmail (jsToLower (jsTrim w)) = false := hwinv
      apply loop_processed_mono
      simp only [processRawValue, htw, hwi, Bool.not_true, Bool.not_false,
        Bool.false_eq_true, if_false, if_true]
      split
      · exact List.mem_append.mpr (Or.inr (List.mem_singleton.mpr rfl))
      · rename_i hcond
        have hseen : st.seen.contains (jsToLower (jsTrim w)) = true := by
          cases hb : st.seen.contains (jsToLower (jsTrim w)) with
          | false => exact absurd (by rw [hb]; simp) hcond
          | true => rfl
        exact hsub _ hseen
    · exact loop_invalid_mem rd vs _ (processRawValue_seenSub rd false st v hsub)
        (fun x hx => htr x (List.mem_cons_of_mem v hx)) w hmem hwinv

/-- A list of already-normalized, valid, pairwise-distinct, unseen strings
passes through the loop unchanged and is appended to the output. -/
theorem loop_passthrough (rd ri : Bool) :
    ∀ (vs : List String) (st : LoopState),
      (∀ v ∈ vs, isValidEmail v = true ∧ normalize v = v ∧ jsTruthyStr v = true) →
      vs.Nodup →
      (∀ v ∈ vs, st.seen.contains v = false) →
      (vs.foldl (processRawValue rd ri) st).processed = st.processed ++ vs
  | [], st, _, _, _ => by simp
  | v :: vs, st, hvs, hnd, hseen => by
    obtain ⟨hval, hnorm, htru⟩ := hvs v (List.mem_cons_self v vs)
    have htl : jsToLower (jsTrim v) = v := hnorm
    have hsv : st.seen.contains v = false := hseen v (List.mem_cons_self v vs)
    rw [List.foldl_cons]
    have hstep : processRawValue rd ri st v =
        ⟨v :: st.seen, st.processed ++ [v], st.validCount + 1,
          st.invalidCount, st.duplicatesCount, st.emptyCount⟩ := by
      simp [processRawValue, htl, htru, hval, hsv]
      intro _ hm
      exact absurd (contains_iff.mpr hm) (by rw [hsv]; simp)
    rw [hstep]
    rw [loop_passthrough rd ri vs _
      (fun x hx => hvs x (List.mem_cons_of_mem v hx))
      (List.nodup_cons.mp hnd).2
      (fun x hx => by
        rw [List.contains_cons]
        have hxv : (x == v) = false := by
          rw [beq_eq_false_iff_ne]
          intro he
          exact (List.nodup_cons.mp hnd).1 (he ▸ hx)
        rw [hxv, hseen x (List.mem_cons_of_mem v hx), Bool.or_false])]
    simp

/-! ### Specification-side description of the fallback scan -/

/-- Specification-side: what one cell contributes to the fallback scan —
its trimmed value, normalized to lowercase, if it is a valid email. -/
def scanValue (v : String) : Option String :=
  let t := jsTrim v
  if jsTruthyStr t && isValidEmail t then some (jsToLower t) else none

/-- Specification-side: every cell of every row, row-then-column order,
trimmed, kept only when a valid email, normalized. -/
def specScan (data : List ParsedRow) : List String :=
  (data.flatMap (fun row => row.map Prod.snd)).filterMap scanValue

/-- Specification-side: deduplicate keeping the first occurrence. -/
def dedupFirst : List String → List String
  | [] => []
  | x :: xs => x :: dedupFirst (xs.filter (fun y => !(y == x)))
termination_by l => l.length
decreasing_by
  simp only [List.length_cons]
  exact Nat.lt_succ_of_le (List.length_filter_le _ _)

theorem dedupFirst_nil : dedupFirst [] = [] := by rw [dedupFirst]

theorem dedupFirst_cons (x : String) (xs : List String) :
    dedupFirst (x :: xs) = x :: dedupFirst (xs.filter (fun y => !(y == x))) := by
  rw [dedupFirst]

theorem mem_dedupFirst : ∀ (l : List String), ∀ y ∈ dedupFirst l, y ∈ l
  | [] => by simp [dedupFirst_nil]
  | x :: xs => by
    rw [dedupFirst_cons]
    intro y hy
    rcases List.mem_cons.mp hy with rfl | hy
    · exact List.mem_cons_self _ _
    · have := mem_dedupFirst (xs.filter (fun y => !(y == x))) y hy
      exact List.mem_cons_of_mem x (List.mem_filter.mp this).1
termination_by l => l.length
decreasing_by
  simp only [List.length_cons]
  exact Nat.lt_succ_of_le (List.length_filter_le _ _)

theorem nodup_dedupFirst : ∀ (l : List String), (dedupFirst l).Nodup
  | [] => by simp [dedupFirst_nil]
  | x :: xs => by
    rw [dedupFirst_cons]
    refine List.nodup_cons.mpr ⟨?_, nodup_dedupFirst _⟩
    intro hx
    have := (List.mem_filter.mp (mem_dedupFirst _ x hx)).2
    simp at this
termination_by l => l.length
decreasing_by
  simp only [List.length_cons]
  exact Nat.lt_succ_of_le (List.length_filter_le _ _)

/-- The seen-set dedup step, over an already-scanned value. -/
def seenStep (acc : List String × List String) (x : String) :
    List String × List String :=
  if acc.1.contains x then acc else (x :: acc.1, acc.2 ++ [x])

theorem allCellsStep_eq_seenStep (acc : List String × List String)
    (v : String) :
    allCellsStep acc v = match scanValue v with
      | some y => seenStep acc y
      | none => acc := by
  unfold allCellsStep scanValue seenStep
  by_cases hg : (jsTruthyStr (jsTrim v) && isValidEmail (jsTrim v)) = true <;>
    simp [hg]

theorem allCellsFold_eq_seenFold :
    ∀ (vals : List String) (acc : List String × List String),
      vals.foldl allCellsStep acc = (vals.filterMap scanValue).foldl seenStep acc
  | [], _ => rfl
  | v :: vals, acc => by
    rw [List.foldl_cons, List.filterMap_cons, allCellsStep_eq_seenStep]
    cases hv : scanValue v with
    | none => exact allCellsFold_eq_seenFold vals acc
    | some y => rw [List.foldl_cons]; exact allCellsFold_eq_seenFold vals _

theorem seenFold_dedupFirst :
    ∀ (l : List String) (s a : List String),
      (l.foldl seenStep (s, a)).2 =
        a ++ dedupFirst (l.filter (fun x => !(s.contains x)))
  | [], s, a => by simp [dedupFirst_nil]
  | x :: l, s, a => by
    rw [List.foldl_cons, List.filter_cons]
    by_cases hc : s.contains x = true
    · rw [seenStep, if_pos hc]
      simp only [hc, Bool.not_true, Bool.false_eq_true, if_false]
      exact seenFold_dedupFirst l s a
    · rw [seenStep, if_neg hc]
      have hc' : s.contains x = false := by
        cases hb : s.contains x
        · rfl
        · exact absurd hb hc
      simp only [hc', Bool.not_false, if_true]
      rw [seenFold_dedupFirst l (x :: s) (a ++ [x]), dedupFirst_cons,
        List.filter_filter]
      have hpred : ∀ y : String,
          (!((x :: s).contains y)) = ((!(y == x)) && !(s.contains y)) := by
        intro y
        rw [List.contains_cons, Bool.not_or]
      rw [List.append_assoc, List.singleton_append]
      have heq : List.filter (fun y => !((x :: s).contains y)) l
          = List.filter (fun y => (!(y == x)) && !(s.contains y)) l :=
        List.filter_congr (fun y _ => hpred y)
      rw [heq]

theorem dataFold_eq_flatMap :
    ∀ (data : List ParsedRow) (acc : List String × List String),
      data.foldl (fun acc row => (row.map Prod.snd).foldl allCellsStep acc) acc
        = (data.flatMap (fun row => row.map Prod.snd)).foldl allCellsStep acc
  | [], _ => rfl
  | row :: data, acc => by
    rw [List.foldl_cons, List.flatMap_cons, List.foldl_append]
    exact dataFold_eq_flatMap data _

/-- The fallback scan is exactly: scan cells in row-then-column order, keep
valid trimmed emails normalized, deduplicate keeping first occurrences. -/
theorem extractEmailsFromAllCells_eq (data : List ParsedRow) :
    extractEmailsFromAllCells data = dedupFirst (specScan data) := by
  unfold extractEmailsFromAllCells specScan
  rw [dataFold_eq_flatMap, allCellsFold_eq_seenFold, seenFold_dedupFirst]
  rw [List.nil_append]
  congr 1
  have : ∀ x : String, (!(([] : List String).contains x)) = true := by
    intro x; rfl
  rw [List.filter_congr (fun x _ => this x), List.filter_true]

theorem extractEmailsFromAllCells_nodup (data : List ParsedRow) :
    (extractEmailsFromAllCells data).Nodup := by
  rw [extractEmailsFromAllCells_eq]
  exact nodup_dedupFirst _

/-! ### The tier-3 best-score scan -/

/-- `y` is the first element of `l` attaining the (strict) maximum of `f`. -/
def IsFirstStrictMax (f : String → Nat) (l : List String) (y : String) : Prop :=
  ∃ l1 l2, l = l1 ++ y :: l2 ∧ (∀ x ∈ l1, f x < f y) ∧ (∀ x ∈ l2, f x ≤ f y)

/-- Characterization of the strictly-improving left-to-right best scan. -/
theorem bestFold_spec (f : String → Nat) :
    ∀ (l : List String) (b : Option String) (m : Nat),
      (l.foldl (fun acc h => if acc.2 < f h then (some h, f h) else acc) (b, m)
          = (b, m) ∧ ∀ x ∈ l, f x ≤ m)
      ∨ (∃ l1 y l2, l = l1 ++ y :: l2 ∧ (∀ x ∈ l1, f x < f y) ∧
          (∀ x ∈ l2, f x ≤ f y) ∧ m < f y ∧
          l.foldl (fun acc h => if acc.2 < f h then (some h, f h) else acc) (b, m)
            = (some y, f y))
  | [], b, m => Or.inl ⟨rfl, by simp⟩
  | h :: t, b, m => by
    rw [List.foldl_cons]
    by_cases hm : m < f h
    · rw [if_pos hm]
      rcases bestFold_spec f t (some h) (f h) with ⟨heq, hall⟩ | ⟨l1, y, l2, ht, h1, h2, hmy, heq⟩
      · exact Or.inr ⟨[], h, t, rfl, by simp, hall, hm, heq⟩
      · refine Or.inr ⟨h :: l1, y, l2, by rw [ht, List.cons_append], ?_, h2,
          Nat.lt_trans hm hmy, heq⟩
        intro x hx
        rcases List.mem_cons.mp hx with rfl | hx
        · exact hmy
        · exact h1 x hx
    · rw [if_neg hm]
      have hle : f h ≤ m := Nat.le_of_not_lt hm
      rcases bestFold_spec f t b m with ⟨heq, hall⟩ | ⟨l1, y, l2, ht, h1, h2, hmy, heq⟩
      · refine Or.inl ⟨heq, ?_⟩
        intro x hx
        rcases List.mem_cons.mp hx with rfl | hx
        · exact hle
        · exact hall x hx
      · refine Or.inr ⟨h :: l1, y, l2, by rw [ht, List.cons_append], ?_, h2, hmy, heq⟩
        intro x hx
        rcases List.mem_cons.mp hx with rfl | hx
        · exact Nat.lt_of_le_of_lt hle hmy
        · exact h1 x hx

theorem mem_dedupFirst_of_mem : ∀ (l : List String), ∀ y ∈ l, y ∈ dedupFirst l
  | [], y => by simp
  | x :: xs, y => by
    intro hy
    rw [dedupFirst_cons]
    rcases List.mem_cons.mp hy with rfl | hy
    · exact List.mem_cons_self _ _
    · by_cases hyx : y = x
      · exact hyx ▸ List.mem_cons_self _ _
      · refine List.mem_cons_of_mem _ ?_
        exact mem_dedupFirst_of_mem _ y
          (List.mem_filter.mpr ⟨hy, by simp [hyx]⟩)
termination_by l => l.length
decreasing_by
  simp only [List.length_cons]
  exact Nat.lt_succ_of_le (List.length_filter_le _ _)

theorem isValidEmail_truthy {s : String} (h : isValidEmail s = true) :
    jsTruthyStr (jsTrim s) = true := by
  unfold jsTruthyStr jsTrim
  cases he : trimChars s.data with
  | nil =>
    exfalso
    unfold isValidEmail at h
    rw [he] at h
    exact absurd h (by decide)
  | cons c cs => rfl

/-- The raw-values sequence both pipelines gather before the statistics loop:
the detected column's non-empty trimmed cells, or (fallback) the validated
deduplicated email list. -/
def gatheredRawValues (headers : List String) (data : List ParsedRow) :
    List String :=
  if jsTruthyOpt (detectEmailColumn headers data) then
    extractRawValuesFromColumn (detectEmailColumn headers data) data
  else extractEmailsFromAllCells data

/-- The raw values gathered in either source mode normalize to non-empty
strings. -/
theorem rawValues_truthy (headers : List String) (data : List ParsedRow) :
    ∀ v ∈ gatheredRawValues headers data,
      jsTruthyStr (normalize v) = true := by
  unfold gatheredRawValues
  split
  · intro v hv
    obtain ⟨h1, h2⟩ := extractRawValuesFromColumn_mem _ data v hv
    rw [jsTruthyStr_normalize_of_trimmed h2]
    exact h1
  · intro v hv
    obtain ⟨h1, h2, _, _⟩ := extractEmailsFromAllCells_mem data v hv
    rw [jsTruthyStr_normalize_of_trimmed h2]
    exact h1

instance {ε α : Type} [DecidableEq ε] [DecidableEq α] :
    DecidableEq (Except ε α) := fun a b =>
  match a, b with
  | .ok x, .ok y =>
    if h : x = y then isTrue (by rw [h])
    else isFalse (fun hc => h (Except.ok.inj hc))
  | .error x, .error y =>
    if h : x = y then isTrue (by rw [h])
    else isFalse (fun hc => h (Except.error.inj hc))
  | .ok _, .error _ => isFalse (fun hc => Except.noConfusion hc)
  | .error _, .ok _ => isFalse (fun hc => Except.noConfusion hc)

/-! ### Claims -/

/-- C1 (counterexample): on headers `["Contact"]` with column values
`"bad"`, `""`, `"c@d.com"` and default options, the result is NOT the one the
spec scenario states: the empty cell is not counted in `stats.empty`. -/
theorem claim1_counterexample :
    parseCSVAndExtractEmails ["Contact"]
      [[("Contact", "bad")], [("Contact", "")], [("Contact", "c@d.com")]]
      noOptions
      ≠ Except.ok ⟨["c@d.com"], some ("Contact"), ⟨2, 1, 1, 0, 1⟩⟩ := by
  decide

/-- C1 (amended): same scenario, but the empty cell in the detected column is
skipped while gathering raw values, so it is counted nowhere and
`stats.empty = 0`; everything else is as the scenario states
(`detectedColumn = "Contact"`, `emails = ["c@d.com"]`,
`total = 2`, `valid = 1`, `invalid = 1`, `duplicates = 0`). -/
theorem claim1_amended :
    parseCSVAndExtractEmails ["Contact"]
      [[("Contact", "bad")], [("Contact", "")], [("Contact", "c@d.com")]]
      noOptions
      = Except.ok ⟨["c@d.com"], some ("Contact"), ⟨2, 1, 1, 0, 0⟩⟩ := by
  decide

/-- C2 (code bug): the CSV variant with omitted options behaves as
`{removeDuplicates: true, removeInvalid: true}`, but the TSV variant reads
the option fields by truthiness without defaulting, so omitted options behave
as `false`/`false` there: on two case-variant duplicates the TSV pipeline with
omitted options keeps both entries, unlike with explicit `true`/`true`. -/
theorem claim2_code_bug :
    (∀ (headers : List String) (data : List ParsedRow),
      parseCSVAndExtractEmails headers data noOptions
        = parseCSVAndExtractEmails headers data ⟨some true, some true⟩)
    ∧ parseTSVAndExtractEmails ["Email"]
        [[("Email", "a@x.com")], [("Email", "A@X.com")]] noOptions
        = Except.ok ⟨["a@x.com", "a@x.com"], some ("Email"), ⟨2, 2, 0, 0, 0⟩⟩
    ∧ parseTSVAndExtractEmails ["Email"]
        [[("Email", "a@x.com")], [("Email", "A@X.com")]] ⟨some true, some true⟩
        = Except.ok ⟨["a@x.com"], some ("Email"), ⟨2, 1, 0, 1, 0⟩⟩
    ∧ parseTSVAndExtractEmails ["Email"]
        [[("Email", "a@x.com")], [("Email", "A@X.com")]] noOptions
        ≠ parseTSVAndExtractEmails ["Email"]
        [[("Email", "a@x.com")], [("Email", "A@X.com")]] ⟨some true, some true⟩ :=
  ⟨fun _ _ => rfl, by decide, by decide, by decide⟩

/-- C4: both pipelines reject exactly when the row sequence is empty (with
their respective "empty file" messages), and resolve successfully on every
non-empty row sequence. -/
theorem claim4 (headers : List String) (data : List ParsedRow)
    (options : ExtractOptions) :
    ((parseCSVAndExtractEmails headers data options).isOk = !data.isEmpty)
    ∧ ((parseTSVAndExtractEmails headers data options).isOk = !data.isEmpty)
    ∧ parseCSVAndExtractEmails headers [] options
        = Except.error ("CSVファイルが空です")
    ∧ parseTSVAndExtractEmails headers [] options
        = Except.error ("TSVファイルが空です") := by
  refine ⟨?_, ?_, rfl, rfl⟩ <;> {
    first
      | unfold parseCSVAndExtractEmails
      | unfold parseTSVAndExtractEmails
    by_cases hd : data.length = 0
    · rw [if_pos hd]
      rw [List.length_eq_zero] at hd
      subst hd
      rfl
    · rw [if_neg hd]
      have hne : data ≠ [] := by
        intro h
        subst h
        exact hd rfl
      rw [List.isEmpty_eq_false.mpr hne]
      rfl
  }

/-- C8: a header exactly equal to `"E-mail 1 - Value"` is always selected by
the detector, regardless of the rows' contents. -/
theorem claim8 (headers : List String) (data : List ParsedRow)
    (h : "E-mail 1 - Value" ∈ headers) :
    detectEmailColumn headers data = some ("E-mail 1 - Value") := by
  unfold detectEmailColumn
  have hs : (headers.find? (fun x => x == "E-mail 1 - Value")).isSome :=
    List.find?_isSome.mpr ⟨_, h, by simp⟩
  obtain ⟨y, hy⟩ := Option.isSome_iff_exists.mp hs
  have hp := List.find?_some hy
  rw [beq_iff_eq] at hp
  subst hp
  rw [hy]

/-- C8 witness: concrete instance with another higher-scoring column. -/
theorem claim8_witness :
    detectEmailColumn ["Other", "E-mail 1 - Value"]
      [[("Other", "real@mail.com"), ("E-mail 1 - Value", "junk")]]
      = some ("E-mail 1 - Value") :=
  claim8 _ _ (by decide)

/-- What a successful CSV run returns, in terms of the embedded helpers. -/
theorem parseCSV_ok_elim {headers : List String} {data : List ParsedRow}
    {options : ExtractOptions} {r : EmailExtractionResult}
    (h : parseCSVAndExtractEmails headers data options = Except.ok r) :
    r = ⟨(processRawValues (options.removeDuplicates.getD true)
            (options.removeInvalid.getD true)
            (gatheredRawValues headers data)).processed,
         detectEmailColumn headers data,
         ⟨(gatheredRawValues headers data).length,
          (processRawValues (options.removeDuplicates.getD true)
            (options.removeInvalid.getD true)
            (gatheredRawValues headers data)).processed.length,
          (processRawValues (options.removeDuplicates.getD true)
            (options.removeInvalid.getD true)
            (gatheredRawValues headers data)).invalidCount,
          (processRawValues (options.removeDuplicates.getD true)
            (options.removeInvalid.getD true)
            (gatheredRawValues headers data)).duplicatesCount,
          (processRawValues (options.removeDuplicates.getD true)
            (options.removeInvalid.getD true)
            (gatheredRawValues headers data)).emptyCount⟩⟩ := by
  unfold parseCSVAndExtractEmails at h
  by_cases hd : data.length = 0
  · rw [if_pos hd] at h
    exact absurd h (by simp)
  · rw [if_neg hd] at h
    exact (Except.ok.inj h).symm

/-- What a successful TSV run returns, in terms of the embedded helpers. -/
theorem parseTSV_ok_elim {headers : List String} {data : List ParsedRow}
    {options : ExtractOptions} {r : EmailExtractionResult}
    (h : parseTSVAndExtractEmails headers data options = Except.ok r) :
    r = ⟨(processRawValues (options.removeDuplicates.getD false)
            (options.removeInvalid.getD false)
            (gatheredRawValues headers data)).processed,
         detectEmailColumn headers data,
         ⟨(gatheredRawValues headers data).length,
          (processRawValues (options.removeDuplicates.getD false)
            (options.removeInvalid.getD false)
            (gatheredRawValues headers data)).processed.length,
          (processRawValues (options.removeDuplicates.getD false)
            (options.removeInvalid.getD false)
            (gatheredRawValues headers data)).invalidCount,
          (processRawValues (options.removeDuplicates.getD false)
            (options.removeInvalid.getD false)
            (gatheredRawValues headers data)).duplicatesCount,
          (processRawValues (options.removeDuplicates.getD false)
            (options.removeInvalid.getD false)
            (gatheredRawValues headers data)).emptyCount⟩⟩ := by
  unfold parseTSVAndExtractEmails at h
  by_cases hd : data.length = 0
  · rw [if_pos hd] at h
    exact absurd h (by simp)
  · rw [if_neg hd] at h
    exact (Except.ok.inj h).symm

/-- C6: in both variants and for every options combination, `stats.total` is
the length of the raw-values sequence gathered before the filtering loop
(column cells in column mode, the validated deduplicated list in fallback),
and `stats.valid` equals `emails.length`. -/
theorem claim6 (headers : List String) (data : List ParsedRow)
    (options : ExtractOptions) (r : EmailExtractionResult) :
    (parseCSVAndExtractEmails headers data options = Except.ok r →
      r.stats.total = (gatheredRawValues headers data).length
      ∧ r.stats.valid = r.emails.length)
    ∧ (parseTSVAndExtractEmails headers data options = Except.ok r →
      r.stats.total = (gatheredRawValues headers data).length
      ∧ r.stats.valid = r.emails.length) := by
  constructor <;> intro h
  · obtain rfl := parseCSV_ok_elim h
    exact ⟨rfl, rfl⟩
  · obtain rfl := parseTSV_ok_elim h
    exact ⟨rfl, rfl⟩

/-- C6 witness. -/
theorem claim6_witness :
    (⟨["a@x.com"], some ("Email"), ⟨1, 1, 0, 0, 0⟩⟩
        : EmailExtractionResult).stats.total
      = (gatheredRawValues ["Email"] [[("Email", "a@x.com")]]).length
    ∧ (⟨["a@x.com"], some ("Email"), ⟨1, 1, 0, 0, 0⟩⟩
        : EmailExtractionResult).stats.valid
      = (⟨["a@x.com"], some ("Email"), ⟨1, 1, 0, 0, 0⟩⟩
        : EmailExtractionResult).emails.length :=
  (claim6 ["Email"] [[("Email", "a@x.com")]] noOptions
    ⟨["a@x.com"], some ("Email"), ⟨1, 1, 0, 0, 0⟩⟩).1 (by decide)

/-- C10: the `empty` counter of the statistics loop can never fire, because
every gathered raw value is non-empty after trimming; both pipelines always
report `stats.empty = 0`. -/
theorem claim10 (headers : List String) (data : List ParsedRow)
    (options : ExtractOptions) (r : EmailExtractionResult) :
    (parseCSVAndExtractEmails headers data options = Except.ok r →
      r.stats.empty = 0)
    ∧ (parseTSVAndExtractEmails headers data options = Except.ok r →
      r.stats.empty = 0) := by
  constructor <;> intro h
  · obtain rfl := parseCSV_ok_elim h
    show (processRawValues _ _ (gatheredRawValues headers data)).emptyCount = 0
    unfold processRawValues
    rw [loop_emptyCount _ _ _ _ (rawValues_truthy headers data)]
    rfl
  · obtain rfl := parseTSV_ok_elim h
    show (processRawValues _ _ (gatheredRawValues headers data)).emptyCount = 0
    unfold processRawValues
    rw [loop_emptyCount _ _ _ _ (rawValues_truthy headers data)]
    rfl

/-- C10 witness. -/
theorem claim10_witness :
    (⟨["a@x.com"], some ("Email"), ⟨1, 1, 0, 0, 0⟩⟩
        : EmailExtractionResult).stats.empty = 0 :=
  (claim10 ["Email"] [[("Email", "a@x.com")]] noOptions
    ⟨["a@x.com"], some ("Email"), ⟨1, 1, 0, 0, 0⟩⟩).1 (by decide)

/-- C9: with deduplication effectively on, the output never contains two
equal (normalized) entries; concretely, `"A@B.com"` and `"a@b.com"` collapse
to the single lowercase entry at the first occurrence's position and the
second occurrence counts as a duplicate. -/
theorem claim9 :
    (∀ (headers : List String) (data : List ParsedRow)
      (options : ExtractOptions) (r : EmailExtractionResult),
      options.removeDuplicates.getD true = true →
      parseCSVAndExtractEmails headers data options = Except.ok r →
      r.emails.Nodup)
    ∧ parseCSVAndExtractEmails ["Email"]
        [[("Email", "A@B.com")], [("Email", "a@b.com")]] noOptions
        = Except.ok ⟨["a@b.com"], some ("Email"), ⟨2, 1, 0, 1, 0⟩⟩ := by
  constructor
  · intro headers data options r h1 h2
    obtain rfl := parseCSV_ok_elim h2
    show (processRawValues _ _ (gatheredRawValues headers data)).processed.Nodup
    rw [h1]
    unfold processRawValues
    exact loop_nodup _ _ initLoopState
      (fun x hx => absurd hx (List.not_mem_nil x)) List.nodup_nil
  · decide

/-- C9 witness. -/
theorem claim9_witness :
    (⟨["a@b.com"], some ("Email"), ⟨2, 1, 0, 1, 0⟩⟩
        : EmailExtractionResult).emails.Nodup :=
  claim9.1 ["Email"] [[("Email", "A@B.com")], [("Email", "a@b.com")]]
    noOptions ⟨["a@b.com"], some ("Email"), ⟨2, 1, 0, 1, 0⟩⟩ rfl (by decide)

/-- C5: with `removeInvalid=false` passed explicitly (column mode), every raw
value of the detected column that fails validation is counted in
`stats.invalid`, its normalized form always appears in `emails` (duplicate
suppression can only hit values whose normalization was already emitted), and
`stats.valid = emails.length`. -/
theorem claim5 (headers : List String) (data : List ParsedRow)
    (options : ExtractOptions) (r : EmailExtractionResult)
    (h1 : options.removeInvalid = some false)
    (h2 : jsTruthyOpt (detectEmailColumn headers data) = true)
    (h3 : parseCSVAndExtractEmails headers data options = Except.ok r) :
    r.stats.invalid = (extractRawValuesFromColumn
        (detectEmailColumn headers data) data).countP (fun v => !(isValidEmail v))
    ∧ (∀ v ∈ extractRawValuesFromColumn (detectEmailColumn headers data) data,
        isValidEmail v = false → normalize v ∈ r.emails)
    ∧ r.stats.valid = r.emails.length := by
  obtain rfl := parseCSV_ok_elim h3
  have hri : options.removeInvalid.getD true = false := by rw [h1]; rfl
  have hraw : gatheredRawValues headers data
      = extractRawValuesFromColumn (detectEmailColumn headers data) data := by
    unfold gatheredRawValues
    rw [if_pos h2]
  have htruthy : ∀ v ∈ extractRawValuesFromColumn
      (detectEmailColumn headers data) data,
      jsTruthyStr (normalize v) = true := by
    intro v hv
    obtain ⟨ht, htr⟩ := extractRawValuesFromColumn_mem _ data v hv
    rw [jsTruthyStr_normalize_of_trimmed htr]
    exact ht
  refine ⟨?_, ?_, rfl⟩
  · show (processRawValues _ _ (gatheredRawValues headers data)).invalidCount = _
    unfold processRawValues
    rw [hraw, loop_invalidCount _ _ _ _ htruthy]
    have hfun : (fun v => !(isValidEmail (normalize v)))
        = (fun v => !(isValidEmail v)) :=
      funext fun v => by rw [isValidEmail_normalize]
    rw [hfun]
    show 0 + _ = _
    rw [Nat.zero_add]
  · intro v hv hvinv
    show normalize v ∈ (processRawValues _ _ (gatheredRawValues headers data)).processed
    unfold processRawValues
    rw [hraw, hri]
    refine loop_invalid_mem _ _ initLoopState ?_ htruthy v hv ?_
    · intro x hx
      exact absurd hx (by simp [initLoopState])
    · rw [isValidEmail_normalize]
      exact hvinv

/-- C5 witness. -/
theorem claim5_witness :
    ((⟨["bad", "a@b.com"], some ("Email"), ⟨2, 2, 1, 0, 0⟩⟩
        : EmailExtractionResult).stats.invalid
      = (extractRawValuesFromColumn
          (detectEmailColumn ["Email"] [[("Email", "bad")], [("Email", "a@b.com")]])
          [[("Email", "bad")], [("Email", "a@b.com")]]).countP
          (fun v => !(isValidEmail v)))
    ∧ (∀ v ∈ extractRawValuesFromColumn
          (detectEmailColumn ["Email"] [[("Email", "bad")], [("Email", "a@b.com")]])
          [[("Email", "bad")], [("Email", "a@b.com")]],
        isValidEmail v = false → normalize v ∈
          (⟨["bad", "a@b.com"], some ("Email"), ⟨2, 2, 1, 0, 0⟩⟩
            : EmailExtractionResult).emails)
    ∧ (⟨["bad", "a@b.com"], some ("Email"), ⟨2, 2, 1, 0, 0⟩⟩
        : EmailExtractionResult).stats.valid
      = (⟨["bad", "a@b.com"], some ("Email"), ⟨2, 2, 1, 0, 0⟩⟩
        : EmailExtractionResult).emails.length :=
  claim5 ["Email"] [[("Email", "bad")], [("Email", "a@b.com")]]
    ⟨some true, some false⟩
    ⟨["bad", "a@b.com"], some ("Email"), ⟨2, 2, 1, 0, 0⟩⟩
    rfl (by decide) (by decide)

/-- With no tier-1/tier-2 match, the detector is the guarded best-score scan. -/
theorem detect_tier3_eq (headers : List String) (data : List ParsedRow)
    (h1 : ∀ h ∈ headers, ¬(h = "E-mail 1 - Value"))
    (h2 : ∀ h ∈ headers,
      (strIncludes (jsToLower h) "e-mail" && strIncludes (jsToLower h) "value")
        = false) :
    detectEmailColumn headers data =
      match headers.foldl
        (fun acc h => if acc.2 < countEmailLikeValues h data then
          (some h, countEmailLikeValues h data) else acc)
        ((none : Option String), 0) with
      | (some bestColumn, maxEmailCount) =>
        if jsTruthyStr bestColumn && decide (0 < maxEmailCount) then
          some bestColumn
        else none
      | (none, _) => none := by
  unfold detectEmailColumn
  have hf1 : headers.find? (fun h => h == "E-mail 1 - Value") = none := by
    rw [List.find?_eq_none]
    intro x hx
    simp only [beq_iff_eq]
    exact fun hc => h1 x hx hc
  have hf2 : headers.find? (fun h =>
      strIncludes (jsToLower h) "e-mail" && strIncludes (jsToLower h) "value")
      = none := by
    rw [List.find?_eq_none]
    intro x hx
    rw [h2 x hx]
    exact fun hc => absurd hc (by decide)
  rw [hf1, hf2]

/-- C3 (counterexample): the claim fails when the strictly-best-scoring
header is the empty string — the code's truthiness test then yields `none`
even though that header has the strictly highest positive score and no
tier-1/tier-2 match exists. -/
theorem claim3_counterexample :
    (∀ h ∈ ([""] : List String), ¬(h = "E-mail 1 - Value"))
    ∧ (∀ h ∈ ([""] : List String),
        (strIncludes (jsToLower h) "e-mail" && strIncludes (jsToLower h) "value")
          = false)
    ∧ countEmailLikeValues ("") [[("", "a@b.com")]] = 1
    ∧ (∀ h ∈ ([""] : List String),
        countEmailLikeValues h [[("", "a@b.com")]]
          ≤ countEmailLikeValues ("") [[("", "a@b.com")]])
    ∧ detectEmailColumn [""] [[("", "a@b.com")]] = none := by
  refine ⟨by decide, by decide, by decide, by decide, by decide⟩

/-- C3 (amended): in tier 3, the detector returns the first header attaining
the strictly highest count of valid-email cells, provided that count is
positive AND that header is a non-empty string; when every header scores zero
— or when the first-seen maximum-score header is the empty string (whose JS
truthiness is false) — it returns none. -/
theorem claim3_amended (headers : List String) (data : List ParsedRow)
    (h1 : ∀ h ∈ headers, ¬(h = "E-mail 1 - Value"))
    (h2 : ∀ h ∈ headers,
      (strIncludes (jsToLower h) "e-mail" && strIncludes (jsToLower h) "value")
        = false) :
    match detectEmailColumn headers data with
    | some y => jsTruthyStr y = true ∧ 0 < countEmailLikeValues y data
        ∧ IsFirstStrictMax (fun h => countEmailLikeValues h data) headers y
    | none => (∀ h ∈ headers, countEmailLikeValues h data = 0)
        ∨ ∃ y, jsTruthyStr y = false ∧ 0 < countEmailLikeValues y data
            ∧ IsFirstStrictMax (fun h => countEmailLikeValues h data) headers y := by
  rw [detect_tier3_eq headers data h1 h2]
  rcases bestFold_spec (fun h => countEmailLikeValues h data) headers none 0 with
    ⟨heq, hall⟩ | ⟨l1, y, l2, hsplit, hlt, hle, hpos, heq⟩
  · rw [heq]
    exact Or.inl (fun h hh => Nat.le_zero.mp (hall h hh))
  · rw [heq]
    dsimp only
    by_cases hty : jsTruthyStr y = true
    · rw [if_pos (by rw [hty, decide_eq_true hpos]; rfl)]
      exact ⟨hty, hpos, l1, l2, hsplit, hlt, hle⟩
    · have hty' : jsTruthyStr y = false := by
        cases hb : jsTruthyStr y
        · rfl
        · exact absurd hb hty
      rw [if_neg (by rw [hty']; simp)]
      exact Or.inr ⟨y, hty', hpos, l1, l2, hsplit, hlt, hle⟩

/-- C3 witness: concrete tier-3 instance, second header strictly best. -/
theorem claim3_witness :
    match detectEmailColumn ["Name", "Mail"]
      [[("Name", "Al"), ("Mail", "a@x.com")], [("Name", "Bo"), ("Mail", "b@x.com")]] with
    | some y => jsTruthyStr y = true
        ∧ 0 < countEmailLikeValues y
            [[("Name", "Al"), ("Mail", "a@x.com")], [("Name", "Bo"), ("Mail", "b@x.com")]]
        ∧ IsFirstStrictMax (fun h => countEmailLikeValues h
            [[("Name", "Al"), ("Mail", "a@x.com")], [("Name", "Bo"), ("Mail", "b@x.com")]])
            ["Name", "Mail"] y
    | none => (∀ h ∈ (["Name", "Mail"] : List String),
          countEmailLikeValues h
            [[("Name", "Al"), ("Mail", "a@x.com")], [("Name", "Bo"), ("Mail", "b@x.com")]] = 0)
        ∨ ∃ y, jsTruthyStr y = false
            ∧ 0 < countEmailLikeValues y
              [[("Name", "Al"), ("Mail", "a@x.com")], [("Name", "Bo"), ("Mail", "b@x.com")]]
            ∧ IsFirstStrictMax (fun h => countEmailLikeValues h
              [[("Name", "Al"), ("Mail", "a@x.com")], [("Name", "Bo"), ("Mail", "b@x.com")]])
              ["Name", "Mail"] y :=
  claim3_amended ["Name", "Mail"]
    [[("Name", "Al"), ("Mail", "a@x.com")], [("Name", "Bo"), ("Mail", "b@x.com")]]
    (by decide) (by decide)

theorem scanValue_of_valid {v : String} (h : isValidEmail v = true) :
    scanValue v = some (jsToLower (jsTrim v)) := by
  unfold scanValue
  dsimp only
  have h1 : isValidEmail (jsTrim v) = true := by rw [isValidEmail_jsTrim]; exact h
  have h2 : jsTruthyStr (jsTrim v) = true := isValidEmail_truthy h
  rw [h2, h1]
  rfl

/-- C7: when the detector finds no column, the result's `detectedColumn` is
`none` and its emails are exactly the row-then-column full-cell scan —
trimmed, kept only if valid, normalized, first-occurrence deduplicated —
regardless of options; in particular every valid-email cell's normalization
appears in the output, and the output has no duplicates. -/
theorem claim7 (headers : List String) (data : List ParsedRow)
    (options : ExtractOptions) (r : EmailExtractionResult)
    (h1 : detectEmailColumn headers data = none)
    (h2 : parseCSVAndExtractEmails headers data options = Except.ok r) :
    r.detectedColumn = none
    ∧ r.emails = dedupFirst (specScan data)
    ∧ r.emails.Nodup
    ∧ (∀ row ∈ data, ∀ p ∈ row, isValidEmail p.2 = true →
        jsToLower (jsTrim p.2) ∈ r.emails) := by
  obtain rfl := parseCSV_ok_elim h2
  have hopt : jsTruthyOpt (detectEmailColumn headers data) = false := by
    rw [h1]
    rfl
  have hraw : gatheredRawValues headers data = extractEmailsFromAllCells data := by
    unfold gatheredRawValues
    rw [hopt]
    simp only [Bool.false_eq_true, if_false]
  have hemails : ∀ rd ri : Bool,
      (processRawValues rd ri (extractEmailsFromAllCells data)).processed
        = extractEmailsFromAllCells data := by
    intro rd ri
    unfold processRawValues
    rw [loop_passthrough rd ri _ initLoopState ?_ (extractEmailsFromAllCells_nodup data) ?_]
    · show ([] : List String) ++ _ = _
      rw [List.nil_append]
    · intro v hv
      obtain ⟨hc1, hc2, hc3, hc4⟩ := extractEmailsFromAllCells_mem data v hv
      exact ⟨hc4, normalize_of_trimmed_lowered hc2 hc3, hc1⟩
    · intro v _
      rfl
  refine ⟨h1, ?_, ?_, ?_⟩
  · show (processRawValues _ _ (gatheredRawValues headers data)).processed = _
    rw [hraw, hemails, extractEmailsFromAllCells_eq]
  · show (processRawValues _ _ (gatheredRawValues headers data)).processed.Nodup
    rw [hraw, hemails]
    exact extractEmailsFromAllCells_nodup data
  · intro row hrow p hp hpv
    show jsToLower (jsTrim p.2)
      ∈ (processRawValues _ _ (gatheredRawValues headers data)).processed
    rw [hraw, hemails, extractEmailsFromAllCells_eq]
    apply mem_dedupFirst_of_mem
    unfold specScan
    apply List.mem_filterMap.mpr
    refine ⟨p.2, ?_, scanValue_of_valid hpv⟩
    apply List.mem_flatMap.mpr
    refine ⟨row, hrow, ?_⟩
    exact List.mem_map.mpr ⟨p, hp, rfl⟩

/-- C7 witness: a table whose only valid email sits in a column that is not
among the headers, so no column is detected and the fallback finds it. -/
theorem claim7_witness :
    (⟨["hit@me.com"], none, ⟨1, 1, 0, 0, 0⟩⟩
        : EmailExtractionResult).detectedColumn = none
    ∧ (⟨["hit@me.com"], none, ⟨1, 1, 0, 0, 0⟩⟩
        : EmailExtractionResult).emails
      = dedupFirst (specScan [[("x", "foo"), ("y", "hit@me.com")]])
    ∧ (⟨["hit@me.com"], none, ⟨1, 1, 0, 0, 0⟩⟩
        : EmailExtractionResult).emails.Nodup
    ∧ (∀ row ∈ ([[("x", "foo"), ("y", "hit@me.com")]] : List ParsedRow),
        ∀ p ∈ row, isValidEmail p.2 = true →
          jsToLower (jsTrim p.2) ∈ (⟨["hit@me.com"], none, ⟨1, 1, 0, 0, 0⟩⟩
            : EmailExtractionResult).emails) :=
  claim7 ["x"] [[("x", "foo"), ("y", "hit@me.com")]] noOptions
    ⟨["hit@me.com"], none, ⟨1, 1, 0, 0, 0⟩⟩ (by decide) (by decide)

end CsvParser
